import Mathlib

/-!
Verification of the lighthouse-quick-start consensus primitives against their
natural-language specification.  The Rust sources are shallowly embedded:
machine integers become `Nat` (with explicit truncation where a cast occurs),
fallible code returns `Except`/`Option`, and a reachable Rust panic
(out-of-bounds slice, zero chunk size, division by zero) is modelled as the
distinguished error `RunError.panicked`.
-/

set_option maxRecDepth 4000

/-- Little-endian byte decomposition of a natural number into a fixed number
of bytes (least significant byte first). -/
def toLEBytes : Nat → Nat → List Nat
  | _, 0 => []
  | n, k + 1 => n % 256 :: toLEBytes (n / 256) k

/-- Recompose a little-endian byte list into a natural number. -/
def fromLEBytes : List Nat → Nat :=
  List.foldr (fun b acc => b + 256 * acc) 0

theorem length_toLEBytes (n k : Nat) : (toLEBytes n k).length = k := by
  induction k generalizing n with
  | zero => rfl
  | succ k ih => simp [toLEBytes, ih]

theorem fromLEBytes_toLEBytes (n k : Nat) (h : n < 256 ^ k) :
    fromLEBytes (toLEBytes n k) = n := by
  induction k generalizing n with
  | zero => simp at h; simp [h, toLEBytes, fromLEBytes]
  | succ k ih =>
    have hdiv : n / 256 < 256 ^ k := by
      rw [Nat.div_lt_iff_lt_mul (by norm_num : 0 < 256)]
      calc n < 256 ^ (k + 1) := h
        _ = 256 ^ k * 256 := by ring
    have := ih (n / 256) hdiv
    simp only [toLEBytes, fromLEBytes, List.foldr_cons] at *
    rw [this]
    omega

/-- Rust slice `chunks(k)` with explicit fuel, so that the definition is
structurally recursive and computes in the kernel.  With fuel at least the
length of the list and `k > 0` it produces the usual chunking. -/
def chunksAux {α : Type} : Nat → Nat → List α → List (List α)
  | 0, _, _ => []
  | _ + 1, _, [] => []
  | fuel + 1, k, a :: l => (a :: l).take k :: chunksAux fuel k ((a :: l).drop k)

/-- Rust slice `chunks(k)` (the caller guarantees `k > 0`, as Rust panics
otherwise; the panic is modelled at each call site). -/
def listChunks {α : Type} (k : Nat) (l : List α) : List (List α) :=
  chunksAux l.length k l

theorem chunksAux_cons {α : Type} (fuel k : Nat) (l : List α) (h : l ≠ []) :
    chunksAux (fuel + 1) k l = l.take k :: chunksAux fuel k (l.drop k) := by
  cases l with
  | nil => exact absurd rfl h
  | cons a l => rfl

theorem chunksAux_join {α : Type} :
    ∀ (fuel k : Nat) (l : List α), 0 < k → l.length ≤ fuel →
      (chunksAux fuel k l).flatten = l := by
  intro fuel
  induction fuel with
  | zero =>
    intro k l hk hl
    have : l = [] := List.length_eq_zero.mp (Nat.le_zero.mp hl)
    subst this; rfl
  | succ fuel ih =>
    intro k l hk hl
    cases l with
    | nil => rfl
    | cons a l =>
      rw [chunksAux_cons fuel k _ (by simp), List.flatten_cons]
      rw [ih k ((a :: l).drop k) hk]
      · exact List.take_append_drop k (a :: l)
      · rw [List.length_drop]
        simp only [List.length_cons] at hl ⊢
        omega

theorem listChunks_join {α : Type} (k : Nat) (l : List α) (hk : 0 < k) :
    (listChunks k l).flatten = l :=
  chunksAux_join l.length k l hk le_rfl

theorem chunksAux_join_uniform {α : Type} :
    ∀ (L : List (List α)) (fuel k : Nat), 0 < k → (∀ x ∈ L, x.length = k) →
      L.flatten.length ≤ fuel → chunksAux fuel k L.flatten = L := by
  intro L
  induction L with
  | nil =>
    intro fuel k hk _ _
    cases fuel <;> rfl
  | cons a L ih =>
    intro fuel k hk hlen hfuel
    have ha : a.length = k := hlen a (by simp)
    have hane : a ≠ [] := by
      intro h; rw [h] at ha; simp at ha; omega
    cases fuel with
    | zero =>
      exfalso
      simp only [List.flatten_cons, List.length_append] at hfuel
      omega
    | succ fuel =>
      have hne : a ++ L.flatten ≠ [] := by
        cases a with
        | nil => exact absurd rfl hane
        | cons b a' => simp
      rw [List.flatten_cons, chunksAux_cons fuel k _ hne]
      rw [← ha, List.take_left, List.drop_left, ha]
      congr 1
      apply ih _ k hk (fun x hx => hlen x (by simp [hx]))
      simp only [List.flatten_cons, List.length_append] at hfuel
      omega

theorem listChunks_join_uniform {α : Type} (L : List (List α)) (k : Nat)
    (hk : 0 < k) (hlen : ∀ x ∈ L, x.length = k) :
    listChunks k L.flatten = L :=
  chunksAux_join_uniform L L.flatten.length k hk hlen le_rfl

/-! ## Delegation of validators (src/beacon_chain/transition/src/delegation/validator.rs) -/

/-- Validator record as consumed by `active_validator_indicies`.  Only the
two dynasty fields are read by the delegation code; the remaining fields of
the registry record (pubkey, balance, status, …) are not under src/ and play
no role in the claims. -/
structure ValidatorRecord where
  start_dynasty : Nat
  end_dynasty : Nat
deriving DecidableEq

/-- Errors of the transition code.  `invalidInput` embeds
`TransitionError::InvalidInput(String)`; `panicked` marks a reachable Rust
panic (zero chunk size, division by zero, failed slice index). -/
inductive RunError where
  | invalidInput (msg : String)
  | panicked
deriving DecidableEq

/-- Message used by `generate_cycle` when the shard/cycle ratio is zero. -/
def shardCountMsg : String :=
  "Number of shards needs to be greater than cycle length"

/-- Embeds `active_validator_indicies`: indices whose record satisfies the
source predicate `(start_dynasty >= dynasty) & (end_dynasty < dynasty)`. -/
def activeValidatorIndicies (dynasty : Nat) (validators : List ValidatorRecord) :
    List Nat :=
  validators.enum.filterMap (fun iv =>
    if dynasty ≤ iv.2.start_dynasty ∧ iv.2.end_dynasty < dynasty then some iv.1
    else none)

/-- Modelled from the spec: the active-validator selection as the spec words
it, `start_dynasty ≤ dynasty < end_dynasty`, preserving registry order.  Used
only to compare the source predicate against the specified one. -/
def specActiveValidatorIndices (dynasty : Nat)
    (validators : List ValidatorRecord) : List Nat :=
  validators.enum.filterMap (fun iv =>
    if iv.2.start_dynasty ≤ dynasty ∧ dynasty < iv.2.end_dynasty then some iv.1
    else none)

/-- Embeds `ShardAndCommittee`; `shard_id` is a `u16` in the source, so the
value carried is the cast `((…) % shard_count) as u16`. -/
structure ShardAndCommittee where
  shard_id : Nat
  committee : List Nat
deriving DecidableEq

/-- The `slots_per_committee` doubling loop of `generate_cycle`:
while `(validator_count * s < cycle_length * min_committee_size) & (s < cycle_length)`
double `s`.  All three products are `usize` multiplications; a product
reaching 2^64 overflows, which is modelled as a panic (`none`; in a debug
build Rust panics right there, and at the inputs probed below a release
build's wrapped values fault later).  Fuel `cycle_length + 1` is enough
since `s` doubles past `cycle_length` in fewer iterations, and the guard
products are evaluated at least once even when the loop body never runs. -/
def spcLoop (vc cl m : Nat) : Nat → Nat → Option Nat
  | 0, s => some s
  | fuel + 1, s =>
    if 2 ^ 64 ≤ vc * s ∨ 2 ^ 64 ≤ cl * m then none
    else if vc * s < cl * m ∧ s < cl then
      if 2 ^ 64 ≤ s * 2 then none else spcLoop vc cl m fuel (s * 2)
    else some s

/-- The `(committees_per_slot, slots_per_committee)` shape computed by
`generate_cycle`.  `none` models the Rust panics reachable in this block:
the `usize` products `cycle_length * min_committee_size` and
`min_committee_size * 2` overflowing 2^64 (debug semantics; in release the
wrap turns `min_committee_size * 2` into a zero divisor at the probed
inputs), the division by `min_committee_size * 2 = 0` when
`min_committee_size = 0` (that branch is always taken then, since
`cycle_length * 0 ≤ validator_count`), and the products of the doubling
loop. -/
def cycleShape (vc sc cl m : Nat) : Option (Nat × Nat) :=
  if 2 ^ 64 ≤ cl * m then none
  else if cl * m ≤ vc then
    if 2 ^ 64 ≤ m * 2 then none
    else if m * 2 = 0 then none
    else some (min (vc / cl / (m * 2) + 1) (sc / cl), 1)
  else
    match spcLoop vc cl m (cl + 1) 1 with
    | none => none
    | some s => some (1, s)

/-- One slot of the cycle: the slot chunk is split into committees and each
committee is paired with its shard id
`((shard_id_start + j) % shard_count) as u16`. -/
def makeSlot (shardIdStart sc : Nat) (committees : List (List Nat)) :
    List ShardAndCommittee :=
  committees.enum.map (fun jc =>
    { shard_id := (shardIdStart + jc.1) % sc % 65536, committee := jc.2 })

/-- The slot-by-slot construction of the cycle.  For slot `i` the source
computes `slot_indices.chunks(slot_indices.len() / committees_per_slot)`,
which panics when the chunk size is zero. -/
def buildCycle (cs cps spc sc : Nat) :
    Nat → List (List Nat) → Except RunError (List (List ShardAndCommittee))
  | _, [] => .ok []
  | i, s :: rest =>
    if s.length / cps = 0 then .error .panicked
    else
      match buildCycle cs cps spc sc (i + 1) rest with
      | .error e => .error e
      | .ok tail =>
          .ok (makeSlot (cs + i * cps / spc) sc (listChunks (s.length / cps) s)
                :: tail)

/-- Embeds `generate_cycle`.  Division by a zero `cycle_length`, any panic
of the shape computation (`usize` overflow or a zero divisor, see
`cycleShape`), and a zero chunk size all panic in Rust and are modelled as
`RunError.panicked`. -/
def generateCycle (vi si : List Nat) (cs cl m : Nat) :
    Except RunError (List (List ShardAndCommittee)) :=
  if cl = 0 then .error .panicked
  else if si.length / cl = 0 then .error (.invalidInput shardCountMsg)
  else
    match cycleShape vi.length si.length cl m with
    | none => .error .panicked
    | some shape =>
      if vi.length / cl = 0 then .error .panicked
      else buildCycle cs shape.1 shape.2 si.length 0
        (listChunks (vi.length / cl) vi)

/-- Flattening of a cycle in (slot, committee, validator) order, as in the
in-repo test helper `flatten_validators`. -/
def flattenValidators (cycle : List (List ShardAndCommittee)) : List Nat :=
  (cycle.map (fun slot => (slot.map (fun sac => sac.committee)).flatten)).flatten

/-- Shard ids per slot, as in the in-repo test helper
`flatten_shards_in_slots`. -/
def flattenShardsInSlots (cycle : List (List ShardAndCommittee)) :
    List (List Nat) :=
  cycle.map (fun slot => slot.map (fun sac => sac.shard_id))

deriving instance DecidableEq for Except

/-! ## Properties of the cycle construction -/

theorem makeSlot_committees (a sc : Nat) (cmts : List (List Nat)) :
    (makeSlot a sc cmts).map (fun sac => sac.committee) = cmts := by
  simp only [makeSlot, List.map_map]
  exact List.enum_map_snd cmts

theorem buildCycle_flatten (cs cps spc sc : Nat) :
    ∀ (slots : List (List Nat)) (i : Nat) (c : List (List ShardAndCommittee)),
      buildCycle cs cps spc sc i slots = .ok c →
      flattenValidators c = slots.flatten := by
  intro slots
  induction slots with
  | nil =>
    intro i c h
    simp only [buildCycle] at h
    injection h with h
    subst h
    rfl
  | cons s rest ih =>
    intro i c h
    simp only [buildCycle] at h
    by_cases h0 : s.length / cps = 0
    · rw [if_pos h0] at h
      exact Except.noConfusion h
    · rw [if_neg h0] at h
      cases hrec : buildCycle cs cps spc sc (i + 1) rest with
      | error e => rw [hrec] at h; exact Except.noConfusion h
      | ok tail =>
        rw [hrec] at h
        injection h with h
        subst h
        simp only [flattenValidators, List.map_cons, List.flatten_cons] at *
        rw [makeSlot_committees, listChunks_join _ _ (Nat.pos_of_ne_zero h0)]
        rw [ih (i + 1) tail hrec]

/-- C1: the claim states that the active-validator selection used by
`delegate_validators` returns exactly the indices with
`start_dynasty ≤ dynasty < end_dynasty`.  The source predicate is inverted
(`start_dynasty >= dynasty & end_dynasty < dynasty`): at dynasty 1 a
validator with `start_dynasty = 0, end_dynasty = 2` is active per the spec
but the code excludes it. -/
theorem active_validator_selection_inverted :
    activeValidatorIndicies 1 [⟨0, 2⟩] = [] ∧
    specActiveValidatorIndices 1 [⟨0, 2⟩] = [0] := by decide

/-- C2: whenever `generate_cycle` returns `Ok`, concatenating the committees
of the returned cycle in (slot, committee) order yields exactly the input
shuffled validator index list. -/
theorem generate_cycle_flatten_committees (vi si : List Nat) (cs cl m : Nat)
    (c : List (List ShardAndCommittee))
    (h : generateCycle vi si cs cl m = .ok c) :
    flattenValidators c = vi := by
  by_cases hcl : cl = 0
  · simp [generateCycle, hcl] at h
  · by_cases hsc : si.length / cl = 0
    · simp [generateCycle, hcl, hsc] at h
    · cases hshape : cycleShape vi.length si.length cl m with
      | none => simp [generateCycle, hcl, hsc, hshape] at h
      | some shape =>
        by_cases hvc : vi.length / cl = 0
        · simp [generateCycle, hcl, hsc, hshape, hvc] at h
        · simp only [generateCycle, if_neg hcl, if_neg hsc, hshape,
            if_neg hvc] at h
          rw [buildCycle_flatten _ _ _ _ _ _ _ h,
            listChunks_join _ _ (Nat.pos_of_ne_zero hvc)]

/-- C2 witness: a concrete accepted input (4 validators, 2 shards,
cycle length 2, minimum committee size 1) and its cycle. -/
theorem generate_cycle_flatten_committees_instance :
    flattenValidators [[⟨0, [0, 1]⟩], [⟨1, [2, 3]⟩]] = List.range 4 :=
  generate_cycle_flatten_committees (List.range 4) (List.range 2) 0 2 1
    [[⟨0, [0, 1]⟩], [⟨1, [2, 3]⟩]] (by decide)

/-- C3: the S1 scenario (`validator_count=100, shard_count=10,
crosslinking_shard_start=0, cycle_length=20, min_committee_size=10`) is in
fact rejected by `generate_cycle`: the guard `shard_count / cycle_length == 0`
fires since `10 / 20 = 0`, so the in-repo test `test_generate_cycle`, which
unwraps the result, cannot pass.  With `shard_count = 20` (the nearest input
passing the guard) the algorithm produces exactly the shard-per-slot pattern
and flattened committees that the claim expects, confirming the rest of the
claimed behaviour. -/
theorem generate_cycle_s1_inputs_rejected :
    generateCycle (List.range 100) (List.range 10) 0 20 10 =
      .error (.invalidInput shardCountMsg) ∧
    (10 : Nat) / 20 = 0 ∧
    (generateCycle (List.range 100) (List.range 20) 0 20 10).map
        flattenShardsInSlots =
      .ok [[0], [0], [1], [1], [2], [2], [3], [3], [4], [4], [5], [5],
           [6], [6], [7], [7], [8], [8], [9], [9]] ∧
    (generateCycle (List.range 100) (List.range 20) 0 20 10).map
        flattenValidators =
      .ok (List.range 100) := by decide

/-- Rust `list.get(a..b)`: `Some` of the subslice when `a ≤ b ≤ len`,
`None` otherwise. -/
def sliceGet {α : Type} (l : List α) (a b : Nat) : Option (List α) :=
  if a ≤ b ∧ b ≤ l.length then some ((l.drop a).take (b - a)) else none

/-- Sequential collection of optional results; `none` as soon as one
element fails (the `unreachable!` branch in the source). -/
def mapOption {α β : Type} (f : α → Option β) : List α → Option (List β)
  | [] => some []
  | x :: xs =>
    match f x, mapOption f xs with
    | some y, some ys => some (y :: ys)
    | _, _ => none

/-- Embeds `honey_badger_split`: the i-th chunk is the slice
`list_length*i/n .. list_length*(i+1)/n`.  The bounds are `usize`
multiplications: a product reaching 2^64 overflows, modelled as a panic
(`none`, debug semantics; at the counterexample input below the release
wrap inverts the two bounds, so `get` fails and the `unreachable!` branch
is taken instead).  A failed slice likewise models the `unreachable!`
panic. -/
def honeyBadgerSplit {α : Type} (l : List α) (n : Nat) :
    Option (List (List α)) :=
  mapOption
    (fun i =>
      if 2 ^ 64 ≤ l.length * i ∨ 2 ^ 64 ≤ l.length * (i + 1) then none
      else sliceGet l (l.length * i / n) (l.length * (i + 1) / n))
    (List.range n)

theorem mapOption_eq_none_of_mem {α β : Type} (f : α → Option β) :
    ∀ (xs : List α) (x : α), x ∈ xs → f x = none → mapOption f xs = none := by
  intro xs
  induction xs with
  | nil =>
    intro x hx _
    exact absurd hx (List.not_mem_nil x)
  | cons y ys ih =>
    intro x hx hfx
    rcases List.mem_cons.mp hx with rfl | hx'
    · cases hm : mapOption f ys <;> simp [mapOption, hfx, hm]
    · rw [mapOption, ih x hx' hfx]
      cases f y <;> rfl

theorem mapOption_all_isSome {α β : Type} (f : α → Option β) :
    ∀ xs : List α, (∀ x ∈ xs, (f x).isSome) →
      ∃ r, mapOption f xs = some r ∧ r.length = xs.length := by
  intro xs
  induction xs with
  | nil => intro _; exact ⟨[], rfl, rfl⟩
  | cons x xs ih =>
    intro h
    obtain ⟨y, hy⟩ := Option.isSome_iff_exists.mp (h x (by simp))
    obtain ⟨r, hr, hlen⟩ := ih (fun a ha => h a (by simp [ha]))
    exact ⟨y :: r, by simp [mapOption, hy, hr], by simp [hlen]⟩

/-- C8 counterexample: at the three-element list and `n = 2^63` the split
is not total.  The index `i = (2^64 - 1) / 3` lies below `n`, and there the
`usize` product `list_length * (i + 1) = 2^64 + 2` overflows: a debug build
panics, and (last two conjuncts) a release build's wrapped bounds are
`start = 1 > end = 0`, so `get(1..0)` is `None` and the `unreachable!`
branch fires. -/
theorem honey_badger_split_overflow_panics :
    honeyBadgerSplit [10, 20, 30] (2 ^ 63) = none ∧
    (0 : Nat) < 2 ^ 63 ∧
    3 * ((2 ^ 64 - 1) / 3) % 2 ^ 64 / 2 ^ 63 = 1 ∧
    3 * ((2 ^ 64 - 1) / 3 + 1) % 2 ^ 64 / 2 ^ 63 = 0 := by
  refine ⟨?_, by norm_num, by norm_num, by norm_num⟩
  apply mapOption_eq_none_of_mem _ (List.range (2 ^ 63)) ((2 ^ 64 - 1) / 3)
  · exact List.mem_range.mpr (by norm_num)
  · decide

/-- C8 (amended): for every list and every chunk count `n > 0` such that
`list_length * n < 2^64` (so no `usize` multiplication overflows), each
slice bound `list_length*i/n .. list_length*(i+1)/n` is within bounds, the
`unreachable!` branch is never taken and exactly `n` chunks are returned;
for larger `n` the bound computation itself overflows and the function
panics instead. -/
theorem honey_badger_split_total {α : Type} (l : List α) (n : Nat)
    (hn : 0 < n) (hof : l.length * n < 2 ^ 64) :
    (∀ i, i < n →
      l.length * i / n ≤ l.length * (i + 1) / n ∧
      l.length * (i + 1) / n ≤ l.length) ∧
    ∃ r, honeyBadgerSplit l n = some r ∧ r.length = n := by
  have hbound : ∀ i, i < n →
      l.length * i / n ≤ l.length * (i + 1) / n ∧
      l.length * (i + 1) / n ≤ l.length := by
    intro i hi
    constructor
    · exact Nat.div_le_div_right (Nat.mul_le_mul_left _ (Nat.le_succ i))
    · have h1 : l.length * (i + 1) ≤ l.length * n :=
        Nat.mul_le_mul_left _ hi
      have h2 := Nat.div_le_div_right (c := n) h1
      rwa [Nat.mul_div_cancel _ hn] at h2
  refine ⟨hbound, ?_⟩
  have := mapOption_all_isSome
    (fun i =>
      if 2 ^ 64 ≤ l.length * i ∨ 2 ^ 64 ≤ l.length * (i + 1) then none
      else sliceGet l (l.length * i / n) (l.length * (i + 1) / n))
    (List.range n) ?_
  · obtain ⟨r, hr, hlen⟩ := this
    exact ⟨r, hr, by rwa [List.length_range] at hlen⟩
  · intro i hi
    have hi' : i < n := List.mem_range.mp hi
    have hov1 : l.length * (i + 1) < 2 ^ 64 :=
      lt_of_le_of_lt (Nat.mul_le_mul_left _ hi') hof
    have hov0 : l.length * i < 2 ^ 64 :=
      lt_of_le_of_lt (Nat.mul_le_mul_left _ (le_of_lt hi')) hof
    obtain ⟨h1, h2⟩ := hbound i hi'
    have hcond : ¬ (2 ^ 64 ≤ l.length * i ∨ 2 ^ 64 ≤ l.length * (i + 1)) := by
      push_neg
      exact ⟨hov0, hov1⟩
    simp [sliceGet, hcond, h1, h2]
    norm_num at hov0 hov1
    exact ⟨hov0, hov1⟩

/-- C8 witness: splitting a three-element list into two chunks succeeds
(the products stay far below 2^64) and both slice bounds are in range. -/
theorem honey_badger_split_total_instance :
    (0 : Nat) < 2 ∧ (3 : Nat) * 2 < 2 ^ 64 ∧
    ∃ r, honeyBadgerSplit [10, 20, 30] 2 = some r ∧ r.length = 2 :=
  ⟨by decide, by decide,
   (honey_badger_split_total [10, 20, 30] 2 (by decide) (by decide)).2⟩

/-! ## BTreeOverlay (src/eth2/utils/cached_tree_hash/src/btree_overlay.rs) -/

/-- Fuel-driven doubling loop computing `usize::next_power_of_two`. -/
def nextPow2Go (n : Nat) : Nat → Nat → Nat
  | 0, acc => acc
  | fuel + 1, acc => if n ≤ acc then acc else nextPow2Go n fuel (2 * acc)

/-- Rust `usize::next_power_of_two`: the smallest power of two that is at
least `n` (with `0` and `1` both mapping to `1`). -/
def nextPow2 (n : Nat) : Nat := nextPow2Go n n 1

/-- Embeds `BTreeOverlay { offset, depth, lengths }`. -/
structure BTreeOverlay where
  offset : Nat
  depth : Nat
  lengths : List Nat
deriving DecidableEq

/-- Embeds `num_leaf_nodes`: `lengths.len().next_power_of_two()`. -/
def numLeafNodes (t : BTreeOverlay) : Nat := nextPow2 t.lengths.length

/-- Embeds `num_internal_nodes`: `num_leaf_nodes - 1`. -/
def numInternalNodes (t : BTreeOverlay) : Nat := numLeafNodes t - 1

/-- The loop body of `n_leaf_node_chunks`: starting at chunk index `chunk`
and leaf index `i`, push the running chunk index and advance it by
`lengths.get(i)` (or by 1 past the end of the lengths table). -/
def nlncAux (lengths : List Nat) : Nat → Nat → Nat → List Nat
  | 0, _, _ => []
  | n + 1, i, chunk =>
    chunk :: nlncAux lengths n (i + 1) (chunk + lengths.getD i 1)

/-- Embeds `n_leaf_node_chunks(n)`. -/
def nLeafNodeChunks (t : BTreeOverlay) (n : Nat) : List Nat :=
  nlncAux t.lengths n 0 (t.offset + numInternalNodes t)

/-- Embeds `internal_node_chunks`: `offset..offset + num_internal_nodes`. -/
def internalNodeChunks (t : BTreeOverlay) : List Nat :=
  (List.range (numInternalNodes t)).map (fun j => t.offset + j)

/-- Embeds `leaf_node_chunks`. -/
def leafNodeChunks (t : BTreeOverlay) : List Nat :=
  nLeafNodeChunks t (numLeafNodes t)

/-- Embeds `child_chunks(parent)`.  Both indices `chunks.len() - 2` and
`chunks.len() - 1` are in bounds (`chunks.len() = 2*parent + 2 ≥ 2`), so
`getD` is a faithful rendering of the Rust indexing. -/
def childChunks (t : BTreeOverlay) (parent : Nat) : Nat × Nat :=
  if 2 * parent + 2 < numInternalNodes t then
    (2 * parent + 1 + t.offset, 2 * parent + 2 + t.offset)
  else
    let chunks := nLeafNodeChunks t (2 * parent + 2)
    (chunks.getD (chunks.length - 2) 0, chunks.getD (chunks.length - 1) 0)

/-- Embeds `internal_parents_and_children`: for each internal parent, the
triple `(parent_chunk, (left_child_chunk, right_child_chunk))` read from the
concatenation of internal and leaf chunk indices. -/
def internalParentsAndChildren (t : BTreeOverlay) :
    List (Nat × (Nat × Nat)) :=
  let chunks := internalNodeChunks t ++ leafNodeChunks t
  (List.range (numInternalNodes t)).map (fun parent =>
    (chunks.getD parent 0,
     (chunks.getD (2 * parent + 1) 0, chunks.getD (2 * parent + 2) 0)))

theorem getD_map_range {β : Type} (f : Nat → β) (n p : Nat) (d : β)
    (hp : p < n) : ((List.range n).map f).getD p d = f p := by
  rw [List.getD_eq_getElem _ _ (by simpa using hp)]
  simp

theorem length_internalNodeChunks (t : BTreeOverlay) :
    (internalNodeChunks t).length = numInternalNodes t := by
  simp [internalNodeChunks]

/-- C5 counterexample: in the uniform four-leaf tree at offset 0 the two
functions disagree at parent 1: `internal_parents_and_children` reports
children chunks `(3, 4)` while `child_chunks` returns `(5, 6)`. -/
theorem child_chunks_mismatch_at_leaf_children :
    1 < numInternalNodes ⟨0, 0, [1, 1, 1, 1]⟩ ∧
    ((internalParentsAndChildren ⟨0, 0, [1, 1, 1, 1]⟩).getD 1 (0, (0, 0))).2 =
      (3, 4) ∧
    childChunks ⟨0, 0, [1, 1, 1, 1]⟩ 1 = (5, 6) := by decide

/-- C5 (amended): `child_chunks(parent)` agrees with the pair reported by
`internal_parents_and_children` for every parent whose children are
internal nodes (`2*parent + 2 < num_internal_nodes`), and for every parent
of a tree with at most two leaf nodes; when the children are leaves of a
larger tree the two functions disagree in general. -/
theorem child_chunks_internal_agreement (t : BTreeOverlay) (p : Nat)
    (hp : p < numInternalNodes t)
    (hcase : 2 * p + 2 < numInternalNodes t ∨ numLeafNodes t ≤ 2) :
    ((internalParentsAndChildren t).getD p (0, (0, 0))).2 = childChunks t p := by
  rcases hcase with hc | hL2
  · simp only [internalParentsAndChildren]
    rw [getD_map_range _ _ _ _ hp]
    rw [childChunks, if_pos hc]
    have h1 : 2 * p + 1 < (internalNodeChunks t).length := by
      rw [length_internalNodeChunks]; omega
    have h2 : 2 * p + 2 < (internalNodeChunks t).length := by
      rw [length_internalNodeChunks]; omega
    rw [List.getD_append _ _ _ _ h1, List.getD_append _ _ _ _ h2]
    simp only [internalNodeChunks]
    rw [getD_map_range _ _ _ _ (by rw [length_internalNodeChunks] at h1; omega),
      getD_map_range _ _ _ _ (by rw [length_internalNodeChunks] at h2; omega)]
    simp [Nat.add_comm]
  · have hL : numLeafNodes t = 2 := by
      unfold numInternalNodes at hp; omega
    have hI : numInternalNodes t = 1 := by
      unfold numInternalNodes; omega
    have hp0 : p = 0 := by omega
    subst hp0
    simp only [internalParentsAndChildren, childChunks, internalNodeChunks,
      leafNodeChunks, nLeafNodeChunks, hI, hL, nlncAux]
    simp [List.range_succ, List.getD]

/-- C5 witness: agreement at parent 0 of the uniform four-leaf tree, whose
children 1 and 2 are internal nodes. -/
theorem child_chunks_internal_agreement_instance :
    ((internalParentsAndChildren ⟨0, 0, [1, 1, 1, 1]⟩).getD 0 (0, (0, 0))).2 =
      childChunks ⟨0, 0, [1, 1, 1, 1]⟩ 0 :=
  child_chunks_internal_agreement ⟨0, 0, [1, 1, 1, 1]⟩ 0 (by decide)
    (Or.inl (by decide))

/-! ## SszBlock (src/lighthouse/state/block/ssz_block.rs) -/

/-- Embeds `BlockValidatorError`. -/
inductive BlockValidatorError where
  | TooShort
  | TooLong
  | NoAttestationRecords
  | BadPowHash
  | SlotTooLow
  | SlotTooHigh
deriving DecidableEq

/-- Minimum serialized block length: 32 + 8 + 32 + 4 + 32 + 32 + 32 = 172. -/
def MIN_SSZ_BLOCK_LENGTH : Nat := 32 + 8 + 32 + 4 + 32 + 32 + 32

/-- Maximum serialized block length: the minimum plus `1 << 24`. -/
def MAX_SSZ_BLOCK_LENGTH : Nat := MIN_SSZ_BLOCK_LENGTH + 2 ^ 24

/-- Modelled from the spec: `decode_length` lives in the ssz decode module,
which is not under src/.  Per the spec the attestations byte-length is a
4-byte little-endian integer; decoding fails when the window exceeds the
input. -/
def decodeLength (bytes : List Nat) (index lengthBytes : Nat) : Option Nat :=
  if index + lengthBytes ≤ bytes.length then
    some (fromLEBytes ((bytes.drop index).take lengthBytes))
  else none

/-- The successfully validated part of `SszBlock` (the byte slice itself and
the two recorded lengths). -/
structure SszBlockRec where
  attestationLen : Nat
  len : Nat
deriving DecidableEq

/-- Embeds `SszBlock::from_slice`, parameterized by
`MIN_SSZ_ATTESTION_RECORD_LENGTH` (a constant of the attestation-record
module, which is not under src/). -/
def sszBlockFromSlice (minAttLen : Nat) (bytes : List Nat) :
    Except BlockValidatorError SszBlockRec :=
  let len := bytes.length
  if len < MIN_SSZ_BLOCK_LENGTH then .error .TooShort
  else if len > MAX_SSZ_BLOCK_LENGTH then .error .TooLong
  else
    match decodeLength bytes 72 4 with
    | none => .error .TooShort
    | some attestationLen =>
      if attestationLen < minAttLen then .error .NoAttestationRecords
      else if len < 76 + attestationLen + 96 then .error .TooShort
      else .ok ⟨attestationLen, len⟩

/-- C6 counterexample: on an input longer than `MAX_SSZ_BLOCK_LENGTH` whose
attestations byte-length field decodes to 0 (below any positive minimum
record size), `from_slice` returns `TooLong`, not `NoAttestationRecords`. -/
theorem ssz_block_too_long_shadows_no_attestation_records :
    decodeLength (List.replicate (172 + 2 ^ 24 + 1) 0) 72 4 = some 0 ∧
    (0 : Nat) < 1 ∧
    sszBlockFromSlice 1 (List.replicate (172 + 2 ^ 24 + 1) 0) =
      .error .TooLong := by
  refine ⟨?_, by norm_num, ?_⟩
  · rw [decodeLength, if_pos (by rw [List.length_replicate]; norm_num)]
    rw [List.drop_replicate, List.take_replicate]
    have hmin : min 4 (172 + 2 ^ 24 + 1 - 72) = 4 := by norm_num
    rw [hmin]
    decide
  · rw [sszBlockFromSlice]
    rw [if_neg (by rw [List.length_replicate]; norm_num [MIN_SSZ_BLOCK_LENGTH])]
    rw [if_pos (by
      rw [List.length_replicate]
      norm_num [MAX_SSZ_BLOCK_LENGTH, MIN_SSZ_BLOCK_LENGTH])]

/-- C6 (amended): `from_slice` returns `TooShort` on every input shorter
than 172 bytes, and returns `NoAttestationRecords` whenever the input is
between 172 and `172 + 2^24` bytes long and the attestations byte-length
field decoded at offset 72 is below the minimum attestation record size;
inputs longer than `MAX_SSZ_BLOCK_LENGTH` return `TooLong` even when that
field is small. -/
theorem ssz_block_error_classification (minAttLen : Nat) (bytes : List Nat) :
    (bytes.length < 172 → sszBlockFromSlice minAttLen bytes = .error .TooShort) ∧
    (∀ n, 172 ≤ bytes.length → bytes.length ≤ 172 + 2 ^ 24 →
      decodeLength bytes 72 4 = some n → n < minAttLen →
      sszBlockFromSlice minAttLen bytes = .error .NoAttestationRecords) := by
  constructor
  · intro h
    rw [sszBlockFromSlice, if_pos (by norm_num [MIN_SSZ_BLOCK_LENGTH]; omega)]
  · intro n h1 h2 hdec hlt
    rw [sszBlockFromSlice, if_neg (by norm_num [MIN_SSZ_BLOCK_LENGTH]; omega),
      if_neg (by norm_num [MAX_SSZ_BLOCK_LENGTH, MIN_SSZ_BLOCK_LENGTH]; omega),
      hdec]
    simp only [if_pos hlt]

/-- C6 witness: a 172-byte all-zero input (the length of a serialized block
with an empty attestation list) decodes to `NoAttestationRecords` for any
positive minimum record size, and the empty input is `TooShort`. -/
theorem ssz_block_error_classification_instance :
    sszBlockFromSlice 1 (List.replicate 172 0) =
      .error .NoAttestationRecords ∧
    sszBlockFromSlice 1 [] = .error .TooShort :=
  ⟨(ssz_block_error_classification 1 (List.replicate 172 0)).2 0 (by decide)
      (by decide) (by decide) (by decide),
   (ssz_block_error_classification 1 []).1 (by decide)⟩

/-! ## Duties manager (src/validator_client/src/duties/mod.rs) -/

/-- Embeds `EpochDuties`. -/
structure EpochDuties where
  block_production_slot : Option Nat
  shard : Option Nat
deriving DecidableEq

/-- Abstract error of the beacon endpoint (`BeaconNodeError`; the trait
module is not under src/, only the error's existence matters here). -/
inductive BeaconNodeErr where
  | RemoteFailure (info : String)
deriving DecidableEq

/-- Embeds `duties::Error`. -/
inductive DutiesError where
  | SlotClockError
  | SlotUnknowable
  | EpochMapPoisoned
  | SlotClockPoisoned
  | EpochLengthIsZero
  | BeaconNodeError (e : BeaconNodeErr)
deriving DecidableEq

/-- Embeds `PollOutcome`. -/
inductive PollOutcome where
  | NoChange
  | NewDuties
  | DutiesChanged
  | UnknownValidatorOrEpoch
deriving DecidableEq

/-- The duties map `(PublicKey, Epoch) → EpochDuties` viewed as a
key-to-value mapping; public keys are abstracted as naturals. -/
def DutiesMap : Type := (Nat × Nat) → Option EpochDuties

/-- The external state one `poll` call observes: the slot clock (its lock
and its reading), the configured epoch length, the beacon endpoint's
response and the duties-map lock state. -/
structure PollEnv where
  clockPoisoned : Bool
  clock : Except Unit (Option Nat)
  epochLength : Nat
  beacon : Except BeaconNodeErr (Option EpochDuties)
  mapPoisoned : Bool

/-- Embeds `DutiesManager::poll`: read the slot, derive the epoch with
`checked_div`, request the shuffling, then compare-and-insert under the
write lock.  Returns the outcome together with the resulting duties map. -/
def poll (env : PollEnv) (m : DutiesMap) (pk : Nat) :
    Except DutiesError PollOutcome × DutiesMap :=
  if env.clockPoisoned then (.error .SlotClockPoisoned, m)
  else
    match env.clock with
    | .error _ => (.error .SlotClockError, m)
    | .ok none => (.error .SlotUnknowable, m)
    | .ok (some slot) =>
      if env.epochLength = 0 then (.error .EpochLengthIsZero, m)
      else
        match env.beacon with
        | .error e => (.error (.BeaconNodeError e), m)
        | .ok none => (.ok .UnknownValidatorOrEpoch, m)
        | .ok (some duties) =>
          if env.mapPoisoned then (.error .EpochMapPoisoned, m)
          else
            let epoch := slot / env.epochLength
            let result : Except DutiesError PollOutcome :=
              match m (pk, epoch) with
              | some known =>
                if known = duties then .ok .NoChange else .ok .DutiesChanged
              | none => .ok .NewDuties
            (result, fun k => if k = (pk, epoch) then some duties else m k)

/-- The epoch a poll call works on (`slot / epoch_length`), defined for the
successful clock readings. -/
def pollEpoch (env : PollEnv) : Nat :=
  match env.clock with
  | .ok (some slot) => slot / env.epochLength
  | _ => 0

/-- Environment of the in-repo polling test: healthy locks, slot 0, epoch
length 64, beacon endpoint answering `d`. -/
def scenarioEnv (d : Option EpochDuties) : PollEnv :=
  ⟨false, .ok (some 0), 64, .ok d, false⟩

/-- Duties map after the first scenario poll. -/
def scenarioMap1 : DutiesMap :=
  (poll (scenarioEnv (some ⟨some 10, some 12⟩)) (fun _ => none) 0).2

/-- Duties map after the second scenario poll. -/
def scenarioMap2 : DutiesMap :=
  (poll (scenarioEnv (some ⟨some 10, some 12⟩)) scenarioMap1 0).2

/-- Duties map after the third scenario poll. -/
def scenarioMap3 : DutiesMap :=
  (poll (scenarioEnv (some ⟨some 11, some 12⟩)) scenarioMap2 0).2

/-- C9: from a fresh map, polling with duties `{block: 10, shard: 12}`
yields `NewDuties`, an immediate repeat yields `NoChange`, switching the
endpoint to `{block: 11, shard: 12}` yields `DutiesChanged`, and an
endpoint answering `None` yields `UnknownValidatorOrEpoch`. -/
theorem duties_polling_scenario :
    (poll (scenarioEnv (some ⟨some 10, some 12⟩)) (fun _ => none) 0).1 =
      .ok .NewDuties ∧
    (poll (scenarioEnv (some ⟨some 10, some 12⟩)) scenarioMap1 0).1 =
      .ok .NoChange ∧
    (poll (scenarioEnv (some ⟨some 11, some 12⟩)) scenarioMap2 0).1 =
      .ok .DutiesChanged ∧
    (poll (scenarioEnv none) scenarioMap3 0).1 =
      .ok .UnknownValidatorOrEpoch :=
  ⟨rfl, rfl, rfl, rfl⟩

/-- C10: `poll` mutates the duties map only on `Ok(NewDuties)` or
`Ok(DutiesChanged)`, and then only at the polled `(pubkey, epoch)` key; on
`Ok(UnknownValidatorOrEpoch)` and on every error the map is exactly as
before; on `Ok(NoChange)` the map (in particular the polled key's value) is
unchanged. -/
theorem poll_frame_conditions (env : PollEnv) (m : DutiesMap) (pk : Nat) :
    ((poll env m pk).1 = .ok .NewDuties ∨
        (poll env m pk).1 = .ok .DutiesChanged →
      ∀ k, k ≠ (pk, pollEpoch env) → (poll env m pk).2 k = m k) ∧
    ((poll env m pk).1 = .ok .UnknownValidatorOrEpoch →
      ∀ k, (poll env m pk).2 k = m k) ∧
    (∀ e, (poll env m pk).1 = .error e → ∀ k, (poll env m pk).2 k = m k) ∧
    ((poll env m pk).1 = .ok .NoChange → ∀ k, (poll env m pk).2 k = m k) := by
  obtain ⟨cp, clk, el, bc, mp⟩ := env
  cases cp
  · cases clk with
    | error u => simp [poll]
    | ok oslot =>
      cases oslot with
      | none => simp [poll]
      | some slot =>
        by_cases hel : el = 0
        · simp [poll, hel]
        · cases bc with
          | error e => simp [poll, hel]
          | ok od =>
            cases od with
            | none => simp [poll, hel]
            | some duties =>
              cases mp
              · cases hm : m (pk, slot / el) with
                | none =>
                  refine ⟨?_, ?_, ?_, ?_⟩
                  · intro _ k hk
                    have hk' : k ≠ (pk, slot / el) := by
                      simpa [pollEpoch] using hk
                    simp [poll, hel, hm, hk']
                  · intro h
                    simp [poll, hel, hm] at h
                  · intro e h
                    simp [poll, hel, hm] at h
                  · intro h
                    simp [poll, hel, hm] at h
                | some known =>
                  by_cases hkd : known = duties
                  · refine ⟨?_, ?_, ?_, ?_⟩
                    · intro h k hk
                      have hk' : k ≠ (pk, slot / el) := by
                        simpa [pollEpoch] using hk
                      simp [poll, hel, hm, hk']
                    · intro h
                      simp [poll, hel, hm, hkd] at h
                    · intro e h
                      simp [poll, hel, hm, hkd] at h
                    · intro _ k
                      by_cases hk : k = (pk, slot / el)
                      · subst hk
                        simp [poll, hel, hm, ← hkd]
                      · simp [poll, hel, hm, hk]
                  · refine ⟨?_, ?_, ?_, ?_⟩
                    · intro h k hk
                      have hk' : k ≠ (pk, slot / el) := by
                        simpa [pollEpoch] using hk
                      simp [poll, hel, hm, hk']
                    · intro h
                      simp [poll, hel, hm, hkd] at h
                    · intro e h
                      simp [poll, hel, hm, hkd] at h
                    · intro h
                      simp [poll, hel, hm, hkd] at h
              · simp [poll, hel]
  · simp [poll]

/-- C10 witness: a `NewDuties` poll leaves every key other than the polled
one untouched. -/
theorem poll_frame_conditions_instance :
    (poll (scenarioEnv (some ⟨some 10, some 12⟩)) (fun _ => none) 0).2 (1, 1) =
      none :=
  (poll_frame_conditions (scenarioEnv (some ⟨some 10, some 12⟩))
      (fun _ => none) 0).1 (Or.inl rfl) (1, 1) (by decide)

/-! ## SSZ encoding of Deposit (src/eth2/types/src/deposit.rs and the
canonical serializer of the spec) -/

/-- Modelled from the spec: `DepositData` is not under src/; the spec gives
`{ pubkey, withdrawal_credentials, amount_gwei: u64, timestamp: u64,
proof_of_possession }` with fixed-width byte strings for the key (48 bytes)
and the signature (96 bytes) and a 32-byte withdrawal-credentials hash. -/
structure DepositData where
  pubkey : List Nat
  withdrawal_credentials : List Nat
  amount_gwei : Nat
  timestamp : Nat
  proof_of_possession : List Nat
deriving DecidableEq

/-- Embeds `Deposit { branch: Vec<Hash256>, index: u64, deposit_data }`. -/
structure Deposit where
  branch : List (List Nat)
  index : Nat
  deposit_data : DepositData
deriving DecidableEq

/-- Modelled from the spec: record fields are encoded in declared order
with no separators; `u64` is 8 bytes little-endian; fixed byte arrays are
raw bytes. -/
def encodeDepositData (d : DepositData) : List Nat :=
  d.pubkey ++ d.withdrawal_credentials ++ toLEBytes d.amount_gwei 8 ++
    toLEBytes d.timestamp 8 ++ d.proof_of_possession

/-- Modelled from the spec: a variable sequence is encoded as a 4-byte
little-endian byte-length followed by the concatenated element encodings
(`append_vec` on the encode side). -/
def encodeHashVec (branch : List (List Nat)) : List Nat :=
  toLEBytes branch.flatten.length 4 ++ branch.flatten

/-- Embeds `Deposit::ssz_append`: `append_vec(branch)`, `append(index)`,
`append(deposit_data)`. -/
def sszEncodeDeposit (dep : Deposit) : List Nat :=
  encodeHashVec dep.branch ++ toLEBytes dep.index 8 ++
    encodeDepositData dep.deposit_data

/-- A bounds-checked read of `n` bytes at offset `i`. -/
def readBytes (bytes : List Nat) (i n : Nat) : Option (List Nat) :=
  if i + n ≤ bytes.length then some ((bytes.drop i).take n) else none

/-- Modelled from the spec: `u64::ssz_decode` reads 8 little-endian bytes. -/
def decodeU64 (bytes : List Nat) (i : Nat) : Option (Nat × Nat) :=
  (readBytes bytes i 8).map (fun l => (fromLEBytes l, i + 8))

/-- Modelled from the spec: a fixed byte array of width `n` decodes as `n`
raw bytes. -/
def decodeFixedBytes (n : Nat) (bytes : List Nat) (i : Nat) :
    Option (List Nat × Nat) :=
  (readBytes bytes i n).map (fun l => (l, i + n))

/-- Modelled from the spec: `Vec<Hash256>::ssz_decode` reads the 4-byte
little-endian byte-length, then exactly that many bytes split into 32-byte
hashes (failing when the byte-length is not a multiple of the element
width). -/
def decodeHashVec (bytes : List Nat) (i : Nat) :
    Option (List (List Nat) × Nat) :=
  match readBytes bytes i 4 with
  | none => none
  | some lp =>
    match readBytes bytes (i + 4) (fromLEBytes lp) with
    | none => none
    | some body =>
      if 32 ∣ fromLEBytes lp then
        some (listChunks 32 body, i + 4 + fromLEBytes lp)
      else none

/-- Embeds `DepositData::ssz_decode` (sequential field decoding; the field
list is modelled from the spec as the struct itself is not under src/). -/
def decodeDepositData (bytes : List Nat) (i : Nat) :
    Option (DepositData × Nat) :=
  match decodeFixedBytes 48 bytes i with
  | none => none
  | some (pk, i) =>
    match decodeFixedBytes 32 bytes i with
    | none => none
    | some (wc, i) =>
      match decodeU64 bytes i with
      | none => none
      | some (am, i) =>
        match decodeU64 bytes i with
        | none => none
        | some (ts, i) =>
          match decodeFixedBytes 96 bytes i with
          | none => none
          | some (pop, i) => some (⟨pk, wc, am, ts, pop⟩, i)

/-- Embeds `Deposit::ssz_decode`: branch, then index, then deposit data,
threading the offset. -/
def sszDecodeDeposit (bytes : List Nat) (i : Nat) : Option (Deposit × Nat) :=
  match decodeHashVec bytes i with
  | none => none
  | some (branch, i) =>
    match decodeU64 bytes i with
    | none => none
    | some (idx, i) =>
      match decodeDepositData bytes i with
      | none => none
      | some (dd, i) => some (⟨branch, idx, dd⟩, i)

/-- Well-formedness of a deposit value: the value space of the Rust type
(field widths and `u64` ranges; the list length bound keeps the 4-byte
length prefix exact). -/
def wfDeposit (d : Deposit) : Prop :=
  (∀ h ∈ d.branch, h.length = 32) ∧
  32 * d.branch.length < 2 ^ 32 ∧
  d.index < 2 ^ 64 ∧
  d.deposit_data.pubkey.length = 48 ∧
  d.deposit_data.withdrawal_credentials.length = 32 ∧
  d.deposit_data.amount_gwei < 2 ^ 64 ∧
  d.deposit_data.timestamp < 2 ^ 64 ∧
  d.deposit_data.proof_of_possession.length = 96

instance (d : Deposit) : Decidable (wfDeposit d) := by
  unfold wfDeposit
  infer_instance

theorem flatten_length_uniform {α : Type} :
    ∀ (L : List (List α)) (k : Nat), (∀ x ∈ L, x.length = k) →
      L.flatten.length = k * L.length := by
  intro L
  induction L with
  | nil => intro k _; simp
  | cons a L ih =>
    intro k h
    simp only [List.flatten_cons, List.length_append, List.length_cons]
    rw [h a (by simp), ih k (fun x hx => h x (by simp [hx]))]
    ring

theorem readBytes_append (pre mid post : List Nat) :
    readBytes (pre ++ (mid ++ post)) pre.length mid.length = some mid := by
  rw [readBytes, if_pos (by simp [List.length_append])]
  rw [List.drop_left, List.take_left]

theorem decodeU64_encode (pre post : List Nat) (n : Nat) (h : n < 2 ^ 64) :
    decodeU64 (pre ++ (toLEBytes n 8 ++ post)) pre.length =
      some (n, pre.length + 8) := by
  have hr := readBytes_append pre (toLEBytes n 8) post
  rw [length_toLEBytes] at hr
  rw [decodeU64, hr]
  have h' : n < 256 ^ 8 := by norm_num at h ⊢; exact h
  simp [fromLEBytes_toLEBytes n 8 h']

theorem decodeFixedBytes_encode (pre mid post : List Nat) :
    decodeFixedBytes mid.length (pre ++ (mid ++ post)) pre.length =
      some (mid, pre.length + mid.length) := by
  rw [decodeFixedBytes, readBytes_append]
  rfl

theorem decodeHashVec_encode (pre post : List Nat) (branch : List (List Nat))
    (hlen : ∀ h ∈ branch, h.length = 32)
    (hsize : 32 * branch.length < 2 ^ 32) :
    decodeHashVec (pre ++ (encodeHashVec branch ++ post)) pre.length =
      some (branch, pre.length + 4 + branch.flatten.length) := by
  have hflat : branch.flatten.length = 32 * branch.length :=
    flatten_length_uniform branch 32 hlen
  have hsz : branch.flatten.length < 2 ^ 32 := by rw [hflat]; exact hsize
  have hsz' : branch.flatten.length < 256 ^ 4 := by norm_num at hsz ⊢; exact hsz
  have hassoc :
      pre ++ (encodeHashVec branch ++ post) =
        pre ++ (toLEBytes branch.flatten.length 4 ++ (branch.flatten ++ post)) := by
    simp [encodeHashVec, List.append_assoc]
  rw [hassoc, decodeHashVec]
  have hr1 := readBytes_append pre (toLEBytes branch.flatten.length 4)
    (branch.flatten ++ post)
  rw [length_toLEBytes] at hr1
  simp only [hr1]
  rw [fromLEBytes_toLEBytes _ 4 hsz']
  have hassoc2 :
      pre ++ (toLEBytes branch.flatten.length 4 ++ (branch.flatten ++ post)) =
        (pre ++ toLEBytes branch.flatten.length 4) ++ (branch.flatten ++ post) := by
    simp [List.append_assoc]
  have hr2 := readBytes_append (pre ++ toLEBytes branch.flatten.length 4)
    branch.flatten post
  rw [List.length_append, length_toLEBytes] at hr2
  rw [hassoc2]
  simp only [hr2]
  rw [if_pos (by rw [hflat]; exact Dvd.intro _ rfl)]
  rw [listChunks_join_uniform branch 32 (by norm_num) hlen]

theorem decodeDepositData_encode (pre post : List Nat) (d : DepositData)
    (h1 : d.pubkey.length = 48)
    (h2 : d.withdrawal_credentials.length = 32)
    (h3 : d.amount_gwei < 2 ^ 64) (h4 : d.timestamp < 2 ^ 64)
    (h5 : d.proof_of_possession.length = 96) :
    decodeDepositData (pre ++ (encodeDepositData d ++ post)) pre.length =
      some (d, pre.length + 192) := by
  have hB : pre ++ (encodeDepositData d ++ post) =
      pre ++ (d.pubkey ++ (d.withdrawal_credentials ++ (toLEBytes d.amount_gwei 8
        ++ (toLEBytes d.timestamp 8 ++ (d.proof_of_possession ++ post))))) := by
    simp [encodeDepositData, List.append_assoc]
  rw [hB]
  simp only [decodeDepositData]
  have s1 := decodeFixedBytes_encode pre d.pubkey
    (d.withdrawal_credentials ++ (toLEBytes d.amount_gwei 8
      ++ (toLEBytes d.timestamp 8 ++ (d.proof_of_possession ++ post))))
  rw [h1] at s1
  simp only [s1]
  have s2 := decodeFixedBytes_encode (pre ++ d.pubkey) d.withdrawal_credentials
    (toLEBytes d.amount_gwei 8
      ++ (toLEBytes d.timestamp 8 ++ (d.proof_of_possession ++ post)))
  rw [h2, List.length_append, h1, List.append_assoc] at s2
  simp only [s2]
  have s3 := decodeU64_encode ((pre ++ d.pubkey) ++ d.withdrawal_credentials)
    (toLEBytes d.timestamp 8 ++ (d.proof_of_possession ++ post))
    d.amount_gwei h3
  rw [List.length_append, List.length_append, h1, h2, List.append_assoc,
    List.append_assoc] at s3
  simp only [s3]
  have s4 := decodeU64_encode
    (((pre ++ d.pubkey) ++ d.withdrawal_credentials) ++ toLEBytes d.amount_gwei 8)
    (d.proof_of_possession ++ post) d.timestamp h4
  rw [List.length_append, List.length_append, List.length_append, h1, h2,
    length_toLEBytes, List.append_assoc, List.append_assoc,
    List.append_assoc] at s4
  simp only [s4]
  have s5 := decodeFixedBytes_encode
    ((((pre ++ d.pubkey) ++ d.withdrawal_credentials)
      ++ toLEBytes d.amount_gwei 8) ++ toLEBytes d.timestamp 8)
    d.proof_of_possession post
  rw [h5, List.length_append, List.length_append, List.length_append,
    List.length_append, h1, h2, length_toLEBytes, length_toLEBytes,
    List.append_assoc, List.append_assoc, List.append_assoc,
    List.append_assoc] at s5
  simp only [s5]

theorem sszEncodeDeposit_eq (d : Deposit) :
    sszEncodeDeposit d = encodeHashVec d.branch ++
      (toLEBytes d.index 8 ++ encodeDepositData d.deposit_data) := by
  simp [sszEncodeDeposit, List.append_assoc]

theorem length_encodeHashVec (branch : List (List Nat)) :
    (encodeHashVec branch).length = 4 + branch.flatten.length := by
  simp [encodeHashVec, length_toLEBytes]

/-- C7: for every well-formed `Deposit` value, decoding its SSZ encoding
from offset 0 succeeds and yields the value itself together with the length
of the encoding, and consequently re-encoding the decoded value reproduces
the identical byte string. -/
theorem deposit_ssz_round_trip (d : Deposit) (h : wfDeposit d) :
    sszDecodeDeposit (sszEncodeDeposit d) 0 =
      some (d, (sszEncodeDeposit d).length) ∧
    (∀ w j, sszDecodeDeposit (sszEncodeDeposit d) 0 = some (w, j) →
      sszEncodeDeposit w = sszEncodeDeposit d) := by
  obtain ⟨hb, hsz, hidx, h1, h2, h3, h4, h5⟩ := h
  have main : sszDecodeDeposit (sszEncodeDeposit d) 0 =
      some (d, (sszEncodeDeposit d).length) := by
    rw [sszEncodeDeposit_eq]
    simp only [sszDecodeDeposit]
    have s1 := decodeHashVec_encode []
      (toLEBytes d.index 8 ++ encodeDepositData d.deposit_data) d.branch hb hsz
    simp only [List.nil_append, List.length_nil, Nat.zero_add] at s1
    simp only [s1]
    have s2 := decodeU64_encode (encodeHashVec d.branch)
      (encodeDepositData d.deposit_data) d.index hidx
    rw [length_encodeHashVec] at s2
    simp only [s2]
    have s3 := decodeDepositData_encode
      (encodeHashVec d.branch ++ toLEBytes d.index 8) [] d.deposit_data
      h1 h2 h3 h4 h5
    rw [List.append_nil, List.length_append, length_encodeHashVec,
      length_toLEBytes, List.append_assoc] at s3
    simp only [s3]
    have hlenDD : (encodeDepositData d.deposit_data).length = 192 := by
      simp [encodeDepositData, length_toLEBytes, h1, h2, h5]
    simp only [List.length_append, length_encodeHashVec, length_toLEBytes,
      hlenDD]
  refine ⟨main, ?_⟩
  intro w j hw
  rw [main] at hw
  have h' := Option.some.inj hw
  have hdw : d = w := congrArg Prod.fst h'
  rw [← hdw]

/-- The S3 scenario deposit: two hashes in the branch, index 7, concrete
deposit data. -/
def sampleDeposit : Deposit :=
  ⟨[List.replicate 32 1, List.replicate 32 2], 7,
   ⟨List.replicate 48 3, List.replicate 32 4, 32, 64, List.replicate 96 5⟩⟩

/-- C7 witness: the S3 deposit is well-formed and round-trips. -/
theorem deposit_ssz_round_trip_instance :
    wfDeposit sampleDeposit ∧
    sszDecodeDeposit (sszEncodeDeposit sampleDeposit) 0 =
      some (sampleDeposit, (sszEncodeDeposit sampleDeposit).length) :=
  ⟨by decide, (deposit_ssz_round_trip sampleDeposit (by decide)).1⟩
